import Mathlib

/-!
Verification of the plugin-configuration loader in `spf/config.py`.

The Python source is shallowly embedded: each helper of `config.py`
(`_transform_option_dict`, `_find_advertised_plugins`,
`_register_advertised_plugin`, `_try_register_other_plugin`,
`_register_plugins`) becomes an executable Lean definition.  External
collaborators (the import machinery, `getattr`, the host's
`register_plugin` callback) are modelled as explicit function-valued
parameters collected in a "world" structure, so that the control flow of
the embedded code is exactly that of the source.
-/

set_option autoImplicit false

namespace SPF

/-- The scalar domain produced by option-string coercion in
`_transform_option_dict`: Python `bool`, `None`, `float` (modelled as a
rational, see `pyParseFloat`), `int` and `str`. -/
inductive Scalar where
  | bool (b : Bool)
  | null
  | float (q : ℚ)
  | int (i : Int)
  | str (s : String)
deriving DecidableEq, Repr

/-- Python `str.split(sep)` for a one-character separator: splitting the
empty string gives `[""]`, and consecutive separators give empty parts. -/
def pySplit (c : Char) : List Char → List (List Char)
  | [] => [[]]
  | x :: xs =>
    if x = c then [] :: pySplit c xs
    else
      match pySplit c xs with
      | [] => [[x]]
      | p :: ps => (x :: p) :: ps

/-- Python `s.split(sep, 1)` for a one-character separator, as the pair of
the text before the first occurrence and the text after it; `none` when
the separator does not occur (so `isSome` is exactly `sep in s`). -/
def splitFirst (c : Char) : List Char → Option (List Char × List Char)
  | [] => Option.none
  | x :: xs =>
    if x = c then some ([], xs)
    else (splitFirst c xs).map (fun p => (x :: p.1, p.2))

/-- The numeric value of a digit string (most significant digit first). -/
def digitsToNat (l : List Char) : Nat :=
  l.foldl (fun n c => 10 * n + (c.toNat - 48)) 0

/-- A nonempty all-digit string parsed as a natural number, else `none`. -/
def parseDigits (l : List Char) : Option Nat :=
  if l ≠ [] ∧ l.all Char.isDigit then some (digitsToNat l) else Option.none

/-- Python `int(s)`, modelled on plain decimal literals: an optional sign
followed by at least one digit.  (Python's `int` additionally strips
whitespace and allows `_` separators; no such literal appears in the
claims and the config-file grammar.) -/
def pyParseInt (l : List Char) : Option Int :=
  match l with
  | '+' :: rest => (parseDigits rest).map Int.ofNat
  | '-' :: rest => (parseDigits rest).map (fun n => -(n : Int))
  | _ => (parseDigits l).map Int.ofNat

/-- The unsigned part of a decimal float literal: digits, optionally with
one `.` somewhere (`"2.5"`, `"2."`, `".5"`, `"7"`), as a
numerator/denominator pair: `ip.fp` denotes `(ip ++ fp) / 10 ^ |fp|`. -/
def parseMantissa (l : List Char) : Option (Nat × Nat) :=
  match splitFirst '.' l with
  | Option.none =>
      if l ≠ [] ∧ l.all Char.isDigit then some (digitsToNat l, 1)
      else Option.none
  | some (ip, fp) =>
      if ¬ fp.contains '.' ∧ ip.all Char.isDigit ∧ fp.all Char.isDigit ∧
          (ip ≠ [] ∨ fp ≠ []) then
        some (digitsToNat (ip ++ fp), 10 ^ fp.length)
      else Option.none

/-- Python `float(s)`, modelled on plain decimal literals with an optional
sign (no exponent, `inf`/`nan`, whitespace or `_` support; the coercion in
`_transform_option_dict` only reaches it on texts containing `.`).  The
value is the exact rational the literal denotes. -/
def pyParseFloat (l : List Char) : Option ℚ :=
  match l with
  | '+' :: rest => (parseMantissa rest).map (fun p => mkRat p.1 p.2)
  | '-' :: rest => (parseMantissa rest).map (fun p => mkRat (-(p.1 : Int)) p.2)
  | _ => (parseMantissa l).map (fun p => mkRat p.1 p.2)

/-- The value-coercion cascade of `_transform_option_dict`: the literals
`"True"`, `"False"`, `"None"` first; otherwise a float attempt when the
text contains `'.'`, else an int attempt; on parse failure the text
itself. -/
def coerceVal (l : List Char) : Scalar :=
  if l = "True".toList then .bool true
  else if l = "False".toList then .bool false
  else if l = "None".toList then .null
  else if l.contains '.' then
    match pyParseFloat l with
    | some q => .float q
    | Option.none => .str (String.mk l)
  else
    match pyParseInt l with
    | some i => .int i
    | Option.none => .str (String.mk l)

/-- Python `dict` assignment `d[k] = v` on an insertion-ordered
association list with unique keys: an existing key keeps its position and
gets the new value, a new key is appended at the end. -/
def dictInsert {α : Type} : List (String × α) → String → α → List (String × α)
  | [], k, v => [(k, v)]
  | (k0, v0) :: rest, k, v =>
      if k0 = k then (k0, v) :: rest else (k0, v0) :: dictInsert rest k v

/-- Python `d[k]` / `k in d` on the same representation. -/
def dictGet {α : Type} : List (String × α) → String → Option α
  | [], _ => Option.none
  | (k0, v0) :: rest, k => if k0 = k then some v0 else dictGet rest k

/-- The body of the part loop in `_transform_option_dict`: split the part
on the first `=` when it has one, coerce the value text, and route it to
`kwargs` when the key is truthy (nonempty) and to `args` otherwise. -/
def processPart (acc : List Scalar × List (String × Scalar)) (part : List Char) :
    List Scalar × List (String × Scalar) :=
  let (kwkey, valText) :=
    match splitFirst '=' part with
    | some p => (some p.1, p.2)
    | Option.none => (Option.none, part)
  let val := coerceVal valText
  match kwkey with
  | some k =>
      if k ≠ [] then (acc.1, dictInsert acc.2 (String.mk k) val)
      else (acc.1 ++ [val], acc.2)
  | Option.none => (acc.1 ++ [val], acc.2)

/-- `_transform_option_dict`: split the option string on `,` and fold the
part loop, returning the positional tuple and keyword dict. -/
def transformOptionDict (options : String) : List Scalar × List (String × Scalar) :=
  (pySplit ',' options.toList).foldl processPart ([], [])

/-- The `if options:` guard in `_register_plugins`: a truthy (nonempty)
option string is parsed, an absent (`None`, from `allow_no_value`) or
empty one yields empty args and kwargs without running the parser. -/
def parseEntryOptions (options : Option String) : List Scalar × List (String × Scalar) :=
  match options with
  | some s => if s ≠ "" then transformOptionDict s else ([], [])
  | Option.none => ([], [])

/-- Python `str.casefold`, modelled for the ASCII names this loader
handles as character-wise lowercasing (Lean's `Char.toLower` maps
`'A'..'Z'`).  The same function is used at discovery-insert time and at
registration-lookup time, which is what the claims depend on. -/
def caseFold (s : String) : String :=
  String.mk (s.toList.map Char.toLower)

/-- A `pkg_resources` entry point under the `sanic_plugins` namespace:
its published name, the dotted module path to import, and the declared
attribute chain (of which the source uses only the first element). -/
structure Entrypoint where
  name : String
  module_name : String
  attrs : List String
deriving DecidableEq, Repr

/-- The `p_dict` descriptor built by `_find_advertised_plugins`:
`{'name': …, 'module': …}` plus an `'instance'` key exactly when a truthy
attribute name resolved.  `M` is the type of imported module objects and
`O` the type of resolved attribute objects. -/
structure PluginDef (M O : Type) where
  name : String
  module : M
  inst : Option O
deriving DecidableEq, Repr

/-- The external collaborators of discovery: `importlib.import_module`
(`none` models `ImportError`) and `getattr` (`none` models
`AttributeError`). -/
structure DiscoveryWorld (M O : Type) where
  importModule : String → Option M
  getattr : M → String → Option O

/-- One iteration of the entry-point loop of `_find_advertised_plugins`,
acting on the accumulated `plugins` dict and the list of messages passed
to the `spf.error` diagnostic sink.  Mirrors the source: import the
module (error + skip on failure); when the first declared attribute is
truthy, resolve it (error + skip on failure) into the `instance` key;
then insert the descriptor under the literal name and under its
case-folded form. -/
def discoverStep {M O : Type} (w : DiscoveryWorld M O)
    (acc : List (String × PluginDef M O) × List String) (ep : Entrypoint) :
    List (String × PluginDef M O) × List String :=
  let (plugins, errors) := acc
  let attr : Option String := ep.attrs.head?
  match w.importModule ep.module_name with
  | Option.none => (plugins, errors ++ ["Cannot import " ++ ep.module_name])
  | some m =>
    match attr with
    | some a =>
        if a ≠ "" then
          match w.getattr m a with
          | Option.none =>
              (plugins, errors ++ ["Cannot import " ++ a ++ " from " ++ ep.module_name])
          | some o =>
              let pd : PluginDef M O := ⟨ep.name, m, some o⟩
              (dictInsert (dictInsert plugins ep.name pd) (caseFold ep.name) pd, errors)
        else
          let pd : PluginDef M O := ⟨ep.name, m, Option.none⟩
          (dictInsert (dictInsert plugins ep.name pd) (caseFold ep.name) pd, errors)
    | Option.none =>
        let pd : PluginDef M O := ⟨ep.name, m, Option.none⟩
        (dictInsert (dictInsert plugins ep.name pd) (caseFold ep.name) pd, errors)

/-- `_find_advertised_plugins`: fold the loop body over the advertised
entry points, starting from an empty dict and no diagnostics.  Returns
the discovery mapping together with the error messages reported to the
sink. -/
def findAdvertisedPlugins {M O : Type} (w : DiscoveryWorld M O) (eps : List Entrypoint) :
    List (String × PluginDef M O) × List String :=
  eps.foldl (discoverStep w) ([], [])

/-- The descriptor an entry point would contribute: `none` exactly when
the source's loop skips the entry (import failure, or failure to resolve
a truthy first attribute). -/
def descriptorOf {M O : Type} (w : DiscoveryWorld M O) (ep : Entrypoint) :
    Option (PluginDef M O) :=
  match w.importModule ep.module_name with
  | Option.none => Option.none
  | some m =>
    match ep.attrs.head? with
    | some a =>
        if a ≠ "" then (w.getattr m a).map (fun o => ⟨ep.name, m, some o⟩)
        else some ⟨ep.name, m, Option.none⟩
    | Option.none => some ⟨ep.name, m, Option.none⟩

/-- The effect of one entry point on the discovery mapping alone: the
double insertion when the entry contributes a descriptor, nothing when it
is skipped.  (Proved below to be the first component of `discoverStep`.) -/
def discoverIns {M O : Type} (w : DiscoveryWorld M O)
    (q : List (String × PluginDef M O)) (ep : Entrypoint) :
    List (String × PluginDef M O) :=
  match descriptorOf w ep with
  | some pd => dictInsert (dictInsert q ep.name pd) (caseFold ep.name) pd
  | Option.none => q

/-- The diagnostic messages one entry point contributes: empty on
success, and the source's `"Cannot import …"` message on either failure. -/
def epErrors {M O : Type} (w : DiscoveryWorld M O) (ep : Entrypoint) : List String :=
  match w.importModule ep.module_name with
  | Option.none => ["Cannot import " ++ ep.module_name]
  | some m =>
    match ep.attrs.head? with
    | some a =>
        if a ≠ "" then
          match w.getattr m a with
          | Option.none => ["Cannot import " ++ a ++ " from " ++ ep.module_name]
          | some _ => []
        else []
    | Option.none => []

/-! ### Registration -/

/-- The object handed to the host's `register_plugin` callback: either a
bare imported module or a resolved instance object. -/
inductive RegTarget (M O : Type) where
  | module (m : M)
  | inst (o : O)
deriving DecidableEq, Repr

/-- The registration record returned by the host callback; the source
reads only its self-reported canonical `plugin_name`. -/
structure RegRecord where
  plugin_name : String
deriving DecidableEq, Repr

/-- One observed call to the host's `register_plugin` callback: the
object registered and the positional and keyword arguments passed. -/
structure Invocation (M O : Type) where
  target : RegTarget M O
  args : List Scalar
  kwargs : List (String × Scalar)
deriving DecidableEq, Repr

/-- The external collaborators of the registration pass: discovery's
collaborators, Python truthiness on attribute objects (used by the
`if inst:` test), and the host's `spf.register_plugin` callback, which
returns the `(plugin, registration)` association pair. -/
structure RegWorld (M O : Type) extends DiscoveryWorld M O where
  truthy : O → Bool
  register_plugin : RegTarget M O → List Scalar → List (String × Scalar) →
    RegTarget M O × RegRecord

/-- The object-selection logic of `_register_advertised_plugin`:
`inst = plugin_def.get('instance', None); if inst: p = inst else:
p = plugin_def['module']` — the instance is used only when present AND
truthy. -/
def resolveTarget {M O : Type} (truthy : O → Bool) (pd : PluginDef M O) :
    RegTarget M O :=
  match pd.inst with
  | some o => if truthy o then .inst o else .module pd.module
  | Option.none => .module pd.module

/-- `_register_advertised_plugin`: resolve the target object and call the
host callback with the parsed arguments.  Also returns the observed
callback invocation. -/
def registerAdvertisedPlugin {M O : Type} (w : RegWorld M O) (pd : PluginDef M O)
    (args : List Scalar) (kwargs : List (String × Scalar)) :
    Invocation M O × (RegTarget M O × RegRecord) :=
  let p := resolveTarget w.truthy pd
  (⟨p, args, kwargs⟩, w.register_plugin p args kwargs)

/-- `_try_register_other_plugin`: import the reference as a dotted module
path; on `ImportError` raise `RuntimeError("Do not know how to register
plugin: …")`, else call the host callback on the bare module. -/
def tryRegisterOtherPlugin {M O : Type} (w : RegWorld M O) (plugin_name : String)
    (args : List Scalar) (kwargs : List (String × Scalar)) :
    Except String (Invocation M O × (RegTarget M O × RegRecord)) :=
  match w.importModule plugin_name with
  | Option.none => .error ("Do not know how to register plugin: " ++ plugin_name)
  | some m => .ok (⟨.module m, args, kwargs⟩, w.register_plugin (.module m) args kwargs)

/-- The body of the entry loop in `_register_plugins` for one
`(plugin, options)` config entry: parse the options (under the
`if options:` guard), case-fold the reference, and dispatch to the
advertised-plugin path on a discovery hit, else to the ad hoc import
path.  `.error` models the propagating `RuntimeError`. -/
def entryStep {M O : Type} (w : RegWorld M O)
    (adv : List (String × PluginDef M O)) (entry : String × Option String) :
    Except String (Invocation M O × (RegTarget M O × RegRecord)) :=
  let ak := parseEntryOptions entry.2
  match dictGet adv (caseFold entry.1) with
  | some pd => .ok (registerAdvertisedPlugin w pd ak.1 ak.2)
  | Option.none => tryRegisterOtherPlugin w entry.1 ak.1 ak.2

/-- The entry loop of `_register_plugins`, threading the
`registered_plugins` dict.  Returns the ordered list of host-callback
invocations actually performed (the externally visible registrations,
which persist even when a later entry fails) together with either the
final dict or the propagated error. -/
def registerPluginsAux {M O : Type} (w : RegWorld M O)
    (adv : List (String × PluginDef M O))
    (registered : List (String × (RegTarget M O × RegRecord))) :
    List (String × Option String) →
    List (Invocation M O) ×
      Except String (List (String × (RegTarget M O × RegRecord)))
  | [] => ([], .ok registered)
  | entry :: rest =>
    match entryStep w adv entry with
    | .error e => ([], .error e)
    | .ok (inv, assoc) =>
        let next :=
          registerPluginsAux w adv
            (dictInsert registered assoc.2.plugin_name assoc) rest
        (inv :: next.1, next.2)

/-- The discovery mapping `_register_plugins` builds before its loop. -/
def advertisedOf {M O : Type} (w : RegWorld M O) (eps : List Entrypoint) :
    List (String × PluginDef M O) :=
  (findAdvertisedPlugins w.toDiscoveryWorld eps).1

/-- `_register_plugins`: run discovery, then fold the entry loop over the
config entries in file order starting from an empty result dict. -/
def registerPlugins {M O : Type} (w : RegWorld M O) (eps : List Entrypoint)
    (config_plugins : List (String × Option String)) :
    List (Invocation M O) ×
      Except String (List (String × (RegTarget M O × RegRecord))) :=
  registerPluginsAux w (advertisedOf w eps) [] config_plugins

/-- Decidable equality on `Except`, so that concrete runs of the
registration pass can be checked by `decide`. -/
def exceptDecEq {ε α : Type} [DecidableEq ε] [DecidableEq α] :
    DecidableEq (Except ε α)
  | .error e, .error e' =>
      if h : e = e' then isTrue (by rw [h])
      else isFalse (by intro hh; cases hh; exact h rfl)
  | .error _, .ok _ => isFalse (by intro h; cases h)
  | .ok _, .error _ => isFalse (by intro h; cases h)
  | .ok a, .ok a' =>
      if h : a = a' then isTrue (by rw [h])
      else isFalse (by intro hh; cases hh; exact h rfl)

instance {ε α : Type} [DecidableEq ε] [DecidableEq α] : DecidableEq (Except ε α) :=
  exceptDecEq

/-- Whether an `Except` computation succeeded. -/
def isOkB {ε α : Type} : Except ε α → Bool
  | .ok _ => true
  | .error _ => false

/-- The success value of an `Except` computation, if any. -/
def exceptOk {ε α : Type} : Except ε α → Option α
  | .ok a => some a
  | .error _ => Option.none

/-- The error of a failed `Except` computation (junk on success). -/
def exceptErr {α : Type} : Except String α → String
  | .ok _ => ""
  | .error e => e

/-- The callback invocation a single config entry produces, when its
resolution does not raise. -/
def entryInv {M O : Type} (w : RegWorld M O) (adv : List (String × PluginDef M O))
    (entry : String × Option String) : Option (Invocation M O) :=
  (exceptOk (entryStep w adv entry)).map Prod.fst

/-- The canonical names self-reported by the registration records of the
entries that register successfully, in file order. -/
def registeredNames {M O : Type} (w : RegWorld M O)
    (adv : List (String × PluginDef M O)) (cfg : List (String × Option String)) :
    List String :=
  cfg.filterMap (fun e => (exceptOk (entryStep w adv e)).map (fun r => r.2.2.plugin_name))

/-- Whether an entry point writes the discovery-mapping key `k` (it is
inserted under its literal name and its case-folded name). -/
def writesKey (ep : Entrypoint) (k : String) : Bool :=
  ep.name == k || caseFold ep.name == k

/-! ### Concrete worlds used by the witnesses -/

/-- A discovery world where every import and attribute lookup succeeds
(modules are named by their dotted path, attributes resolve to `true`). -/
def allOkDW : DiscoveryWorld String Bool :=
  { importModule := fun s => some s, getattr := fun _ _ => some true }

/-- Two advertised plugins whose names differ only by case. -/
def collideEps : List Entrypoint :=
  [⟨"Abc", "m1", []⟩, ⟨"ABC", "m2", []⟩]

/-- A discovery world where exactly the module `"badmod"` fails to
import. -/
def oneBadDW : DiscoveryWorld String Bool :=
  { importModule := fun s => if s = "badmod" then Option.none else some s,
    getattr := fun _ _ => some true }

/-- A registration world over `oneBadDW` whose callback reports the
registered module's name prefixed with `reg:` as the canonical plugin
name. -/
def oneBadRW : RegWorld String Bool :=
  { toDiscoveryWorld := oneBadDW,
    truthy := fun b => b,
    register_plugin := fun t _args _kwargs =>
      (t, ⟨match t with
           | .module m => "reg:" ++ m
           | .inst _ => "reg:inst"⟩) }

/-- A descriptor whose `instance` key is present but falsy. -/
def falsyInstPD : PluginDef String Bool := ⟨"P", "modP", some false⟩

/-! ### Spec-side coercion rules

A second definition of the value coercion, following the specification's
words ("first successful coercion in a fixed priority order wins"): an
ordered list of rules, the first matching rule decides.  Claim C1 is the
refinement statement that the source's cascade equals this rule list. -/

/-- The five coercion rules named by the spec, in its priority order. -/
inductive CoerceRule where
  | litTrue
  | litFalse
  | litNone
  | floatAttempt
  | intAttempt
deriving DecidableEq, Repr

/-- What one spec rule says about a value text: `none` when the rule does
not apply, `some s` when it decides the scalar.  The float (resp. int)
attempt applies exactly when the text contains (resp. does not contain)
`'.'`, and falls back to the unmodified string on parse failure. -/
def ruleMatch (r : CoerceRule) (l : List Char) : Option Scalar :=
  match r with
  | .litTrue => if l = "True".toList then some (.bool true) else Option.none
  | .litFalse => if l = "False".toList then some (.bool false) else Option.none
  | .litNone => if l = "None".toList then some .null else Option.none
  | .floatAttempt =>
      if l.contains '.' then
        some (match pyParseFloat l with
              | some q => .float q
              | Option.none => .str (String.mk l))
      else Option.none
  | .intAttempt =>
      some (match pyParseInt l with
            | some i => .int i
            | Option.none => .str (String.mk l))

/-- The spec's strict priority order over the rules. -/
def specRuleOrder : List CoerceRule :=
  [.litTrue, .litFalse, .litNone, .floatAttempt, .intAttempt]

/-- Spec-side coercion: the first matching rule in priority order wins;
if no rule matches, the text stands unmodified. -/
def specCoerceVal (l : List Char) : Scalar :=
  match specRuleOrder.findSome? (fun r => ruleMatch r l) with
  | some s => s
  | Option.none => .str (String.mk l)

/-- `splitFirst` finds nothing in a list that does not contain the
separator. -/
theorem splitFirst_of_not_mem (c : Char) (l : List Char) (h : c ∉ l) :
    splitFirst c l = Option.none := by
  induction l with
  | nil => rfl
  | cons x xs ih =>
      simp only [List.mem_cons, not_or] at h
      simp only [splitFirst]
      rw [if_neg (fun hx => h.1 hx.symm), ih h.2]
      rfl

end SPF

namespace SPF

/-- Claim C1: the value coercion of `_transform_option_dict` tries, in
strict priority order, the literals `"True"`/`"False"`/`"None"`, then a
float parse exactly when the text contains `'.'` (string fallback on
failure), else an int parse (string fallback on failure) — i.e. it equals
the spec's first-matching-rule semantics — and on the option string
`"a,b=1,c=True,d=2.5,e=None"` it yields positional `("a",)` and named
`{b: 1, c: True, d: 2.5, e: None}`. -/
theorem coercion_priority_and_example :
    (∀ l : List Char, coerceVal l = specCoerceVal l) ∧
    transformOptionDict "a,b=1,c=True,d=2.5,e=None" =
      ([Scalar.str "a"],
       [("b", Scalar.int 1), ("c", Scalar.bool true),
        ("d", Scalar.float (mkRat 5 2)), ("e", Scalar.null)]) := by
  constructor
  · intro l
    simp only [coerceVal, specCoerceVal, specRuleOrder, List.findSome?, ruleMatch]
    split_ifs <;> rfl
  · decide

/-- Claim C4 (counterexample): parsing the empty option string does not
yield an empty positional sequence — `"".split(',')` is `[""]`, so the
parse yields one positional empty-string scalar. -/
theorem empty_options_counterexample :
    ¬ (transformOptionDict "" = (([] : List Scalar), ([] : List (String × Scalar)))) := by
  decide

/-- Claim C4 (amended): parsing the empty raw string yields exactly one
positional value, the empty string scalar, and an empty named mapping;
the caller's `if options:` guard skips the parser for absent or empty
option text, so registration then uses empty args and kwargs. -/
theorem empty_options_parse :
    transformOptionDict "" = ([Scalar.str ""], []) ∧
    parseEntryOptions (some "") = ([], []) ∧
    parseEntryOptions Option.none = ([], []) := by
  refine ⟨by decide, by decide, rfl⟩

/-- Claim C7: a part containing `=` is split only on the first `=` — the
key is the text before it and the value text is everything after it,
verbatim, further `=` characters included — and a part containing no `=`
is processed entirely as an unkeyed (positional) value text. -/
theorem split_on_first_eq :
    (∀ k v : List Char, '=' ∉ k → splitFirst '=' (k ++ '=' :: v) = some (k, v)) ∧
    (∀ (part : List Char) (args : List Scalar) (kwargs : List (String × Scalar)),
       '=' ∉ part → processPart (args, kwargs) part = (args ++ [coerceVal part], kwargs)) := by
  constructor
  · intro k v hk
    induction k with
    | nil => rfl
    | cons x xs ih =>
        simp only [List.mem_cons, not_or] at hk
        simp only [List.cons_append, splitFirst]
        rw [if_neg (fun hx => hk.1 hx.symm), List.append_eq, ih hk.2]
        rfl
  · intro part args kwargs hp
    simp only [processPart, splitFirst_of_not_mem '=' part hp]

/-- Claim C7 witness at `"b=c=d"` (key `"b"`, value `"c=d"` verbatim) and
at the keyless part `"foo"`. -/
theorem split_on_first_eq_witness :
    splitFirst '=' ("b".toList ++ '=' :: "c=d".toList) = some ("b".toList, "c=d".toList) ∧
    processPart ([], []) "foo".toList = ([] ++ [coerceVal "foo".toList], []) :=
  ⟨split_on_first_eq.1 "b".toList "c=d".toList (by decide),
   split_on_first_eq.2 "foo".toList [] [] (by decide)⟩

/-- Claim C10: a part whose text before the first `=` is empty is routed
to the positional sequence (the empty key is falsy, so `if kwkey:` takes
the append branch), leaving the named mapping unchanged; in particular
`"=foo"` parses to positional `("foo",)` and an empty named mapping. -/
theorem empty_key_positional :
    (∀ (v : List Char) (args : List Scalar) (kwargs : List (String × Scalar)),
       processPart (args, kwargs) ('=' :: v) = (args ++ [coerceVal v], kwargs)) ∧
    transformOptionDict "=foo" = ([Scalar.str "foo"], []) := by
  exact ⟨fun v args kwargs => rfl, by decide⟩

end SPF

namespace SPF

/-- Lookup after a dict update: the updated key reads the new value,
every other key is unaffected. -/
theorem dictGet_dictInsert {α : Type} (d : List (String × α)) (k k' : String) (v : α) :
    dictGet (dictInsert d k v) k' = if k = k' then some v else dictGet d k' := by
  induction d with
  | nil => simp [dictInsert, dictGet]
  | cons hd tl ih =>
      obtain ⟨k0, v0⟩ := hd
      by_cases h0 : k0 = k
      · subst h0
        simp only [dictInsert, if_pos rfl, dictGet]
        by_cases h1 : k0 = k' <;> simp [h1]
      · simp only [dictInsert, if_neg h0, dictGet, ih]
        by_cases h1 : k0 = k'
        · have h2 : ¬ (k = k') := fun hk => h0 (h1.trans hk.symm)
          simp [h1, h2]
        · simp [h1]

/-- A key is present in a dict exactly when it is among the stored keys. -/
theorem dictGet_isSome_iff {α : Type} (d : List (String × α)) (k : String) :
    (dictGet d k).isSome = true ↔ k ∈ d.map Prod.fst := by
  induction d with
  | nil => simp [dictGet]
  | cons hd tl ih =>
      obtain ⟨k0, v0⟩ := hd
      by_cases h : k0 = k
      · subst h; simp [dictGet]
      · have h' : ¬ (k = k0) := fun hk => h hk.symm
        simp [dictGet, h, h', ih]

/-- A dict update leaves the key sequence unchanged when the key was
already present, and appends the key otherwise. -/
theorem map_fst_dictInsert {α : Type} (d : List (String × α)) (k : String) (v : α) :
    (dictInsert d k v).map Prod.fst =
      if (dictGet d k).isSome = true then d.map Prod.fst
      else d.map Prod.fst ++ [k] := by
  induction d with
  | nil => simp [dictInsert, dictGet]
  | cons hd tl ih =>
      obtain ⟨k0, v0⟩ := hd
      by_cases h : k0 = k
      · subst h; simp [dictInsert, dictGet]
      · simp only [dictInsert, if_neg h, dictGet, List.map_cons, ih]
        split_ifs <;> simp

/-- Dict updates preserve key uniqueness. -/
theorem nodup_keys_dictInsert {α : Type} (d : List (String × α)) (k : String) (v : α)
    (h : (d.map Prod.fst).Nodup) : ((dictInsert d k v).map Prod.fst).Nodup := by
  rw [map_fst_dictInsert]
  split_ifs with hs
  · exact h
  · rw [List.nodup_append]
    refine ⟨h, List.nodup_singleton k, ?_⟩
    intro a ha hb
    rw [List.mem_singleton] at hb
    subst hb
    exact hs ((dictGet_isSome_iff d a).mpr ha)

/-- Every pair of an updated dict is the inserted pair or one of the old
pairs. -/
theorem mem_dictInsert {α : Type} (d : List (String × α)) (k : String) (v : α)
    (p : String × α) (hp : p ∈ dictInsert d k v) : p = (k, v) ∨ p ∈ d := by
  induction d with
  | nil => simpa [dictInsert] using hp
  | cons hd tl ih =>
      obtain ⟨k0, v0⟩ := hd
      by_cases h : k0 = k
      · subst h
        simp only [dictInsert, if_pos rfl] at hp
        rcases List.mem_cons.mp hp with h1 | h1
        · exact Or.inl h1
        · exact Or.inr (List.mem_cons_of_mem _ h1)
      · simp only [dictInsert, if_neg h] at hp
        rcases List.mem_cons.mp hp with h1 | h1
        · exact Or.inr (h1 ▸ List.mem_cons_self _ _)
        · rcases ih h1 with h2 | h2
          · exact Or.inl h2
          · exact Or.inr (List.mem_cons_of_mem _ h2)

/-- One discovery-loop iteration, split into its effect on the mapping
(`discoverIns`) and on the diagnostics (`epErrors`). -/
theorem discoverStep_eq {M O : Type} (w : DiscoveryWorld M O)
    (p : List (String × PluginDef M O)) (e : List String) (ep : Entrypoint) :
    discoverStep w (p, e) ep = (discoverIns w p ep, e ++ epErrors w ep) := by
  simp only [discoverStep, discoverIns, descriptorOf, epErrors]
  cases him : w.importModule ep.module_name with
  | none => simp
  | some m =>
      cases ha : ep.attrs.head? with
      | none => simp
      | some a =>
          by_cases hne : a ≠ ""
          · cases hg : w.getattr m a <;> simp [hne, hg]
          · simp [hne]

/-- The discovery fold, componentwise: the mapping is the fold of
`discoverIns`, the diagnostics are the concatenated per-entry messages. -/
theorem foldl_discoverStep_eq {M O : Type} (w : DiscoveryWorld M O)
    (eps : List Entrypoint) (p : List (String × PluginDef M O)) (e : List String) :
    eps.foldl (discoverStep w) (p, e) =
      (eps.foldl (discoverIns w) p, e ++ (eps.map (epErrors w)).flatten) := by
  induction eps generalizing p e with
  | nil => simp
  | cons ep rest ih =>
      rw [List.foldl_cons, List.foldl_cons, discoverStep_eq, ih]
      simp [List.append_assoc]

/-- A skipped entry point reports at least one diagnostic message. -/
theorem epErrors_ne_nil_of_fail {M O : Type} (w : DiscoveryWorld M O) (ep : Entrypoint)
    (h : descriptorOf w ep = Option.none) : epErrors w ep ≠ [] := by
  unfold descriptorOf at h
  unfold epErrors
  cases him : w.importModule ep.module_name with
  | none => simp
  | some m =>
      simp only [him] at h
      cases ha : ep.attrs.head? with
      | none => simp only [ha] at h; exact absurd h (by simp)
      | some a =>
          simp only [ha] at h
          by_cases hne : a ≠ ""
          · simp only [if_pos hne] at h
            cases hg : w.getattr m a with
            | none => simp [hne, hg]
            | some o => simp only [hg] at h; simp at h
          · simp only [if_neg hne] at h; exact absurd h (by simp)

end SPF

namespace SPF

/-- Lookup in the discovery mapping after a run in which every entry
point succeeds: a key reads the descriptor of the last entry point that
wrote it (under its literal or case-folded name), and falls back to the
initial dict. -/
theorem foldl_discoverIns_get {M O : Type} (w : DiscoveryWorld M O)
    (eps : List Entrypoint) (p : List (String × PluginDef M O)) (k : String)
    (hsucc : ∀ ep ∈ eps, (descriptorOf w ep).isSome = true) :
    dictGet (eps.foldl (discoverIns w) p) k =
      match eps.reverse.find? (fun ep => writesKey ep k) with
      | some ep => descriptorOf w ep
      | Option.none => dictGet p k := by
  induction eps generalizing p with
  | nil => simp
  | cons ep rest ih =>
      obtain ⟨pd, hpd⟩ :=
        Option.isSome_iff_exists.mp (hsucc ep (List.mem_cons_self ep rest))
      rw [List.foldl_cons, ih _ (fun x hx => hsucc x (List.mem_cons_of_mem _ hx)),
        List.reverse_cons, List.find?_append]
      cases hfind : rest.reverse.find? (fun ep2 => writesKey ep2 k) with
      | some ep2 => simp [Option.or]
      | none =>
          simp only [Option.or, List.find?]
          unfold discoverIns
          rw [hpd, dictGet_dictInsert, dictGet_dictInsert]
          by_cases h1 : caseFold ep.name = k
          · have hw : writesKey ep k = true := by
              simp [writesKey, h1]
            simp [hw, h1, hpd]
          · by_cases h2 : ep.name = k
            · have hw : writesKey ep k = true := by
                simp [writesKey, h2]
              simp [hw, h1, h2, hpd]
            · have hw : writesKey ep k = false := by
                simp [writesKey, h1, h2]
              simp [hw, h1, h2]

/-- Claim C5: when every entry point is processed successfully, an entry
whose two keys (literal name and case-folded name) are not written by any
later entry is found in the discovery mapping under both keys, both
bound to its (present) descriptor; and when several entries case-fold to
the same key, that key holds the descriptor of the last of them (last
writer wins, and the pass never raises — discovery is total). -/
theorem discovery_dual_key_last_wins {M O : Type} (w : DiscoveryWorld M O)
    (eps : List Entrypoint)
    (hsucc : ∀ ep ∈ eps, (descriptorOf w ep).isSome = true) :
    (∀ pre ep post, eps = pre ++ ep :: post →
       (∀ ep2 ∈ post, writesKey ep2 ep.name = false ∧
          writesKey ep2 (caseFold ep.name) = false) →
       dictGet (findAdvertisedPlugins w eps).1 ep.name = descriptorOf w ep ∧
       dictGet (findAdvertisedPlugins w eps).1 (caseFold ep.name) = descriptorOf w ep ∧
       (descriptorOf w ep).isSome = true) ∧
    (∀ pre ep1 mid ep2 post, eps = pre ++ ep1 :: (mid ++ ep2 :: post) →
       caseFold ep1.name = caseFold ep2.name →
       (∀ ep3 ∈ post, writesKey ep3 (caseFold ep2.name) = false) →
       dictGet (findAdvertisedPlugins w eps).1 (caseFold ep2.name) =
         descriptorOf w ep2) := by
  have hget : ∀ k, dictGet (findAdvertisedPlugins w eps).1 k =
      match eps.reverse.find? (fun ep => writesKey ep k) with
      | some ep => descriptorOf w ep
      | Option.none => dictGet ([] : List (String × PluginDef M O)) k := by
    intro k
    unfold findAdvertisedPlugins
    rw [foldl_discoverStep_eq]
    exact foldl_discoverIns_get w eps [] k hsucc
  constructor
  · rintro pre ep post rfl hpost
    have hself : writesKey ep ep.name = true := by simp [writesKey]
    have hfold : writesKey ep (caseFold ep.name) = true := by simp [writesKey]
    have hnone1 : post.reverse.find? (fun ep2 => writesKey ep2 ep.name) = Option.none := by
      rw [List.find?_eq_none]
      intro x hx
      simp [(hpost x (List.mem_reverse.mp hx)).1]
    have hnone2 : post.reverse.find?
        (fun ep2 => writesKey ep2 (caseFold ep.name)) = Option.none := by
      rw [List.find?_eq_none]
      intro x hx
      simp [(hpost x (List.mem_reverse.mp hx)).2]
    refine ⟨?_, ?_, hsucc ep (by simp)⟩
    · rw [hget ep.name]
      rw [List.reverse_append, List.reverse_cons, List.find?_append,
        List.find?_append, hnone1]
      simp [List.find?, hself, Option.or]
    · rw [hget (caseFold ep.name)]
      rw [List.reverse_append, List.reverse_cons, List.find?_append,
        List.find?_append, hnone2]
      simp [List.find?, hfold, Option.or]
  · rintro pre ep1 mid ep2 post rfl hcase hpost
    have hfold : writesKey ep2 (caseFold ep2.name) = true := by simp [writesKey]
    have hnone : post.reverse.find?
        (fun ep3 => writesKey ep3 (caseFold ep2.name)) = Option.none := by
      rw [List.find?_eq_none]
      intro x hx
      simp [hpost x (List.mem_reverse.mp hx)]
    rw [hget (caseFold ep2.name)]
    simp only [List.reverse_append, List.reverse_cons, List.find?_append,
      List.append_assoc]
    rw [hnone]
    simp [List.find?, hfold, Option.or]

/-- Claim C5 witness: two all-successful entry points `"Abc"` and
`"ABC"` collide on the case-folded key, which ends up holding the
descriptor of the later one; the later one is also found under its
literal key. -/
theorem discovery_dual_key_last_wins_witness :
    dictGet (findAdvertisedPlugins allOkDW collideEps).1 (caseFold "ABC") =
      descriptorOf allOkDW ⟨"ABC", "m2", []⟩ ∧
    dictGet (findAdvertisedPlugins allOkDW collideEps).1 "ABC" =
      descriptorOf allOkDW ⟨"ABC", "m2", []⟩ :=
  ⟨(discovery_dual_key_last_wins allOkDW collideEps (by decide)).2
      [] ⟨"Abc", "m1", []⟩ [] ⟨"ABC", "m2", []⟩ [] rfl (by decide) (by decide),
   ((discovery_dual_key_last_wins allOkDW collideEps (by decide)).1
      [⟨"Abc", "m1", []⟩] ⟨"ABC", "m2", []⟩ [] rfl (by decide)).1⟩

/-- Claim C6: a discovery entry whose import (or truthy-attribute
resolution) fails is skipped — the resulting mapping is exactly the one
obtained without that entry — while an error is reported to the
diagnostic sink in sequence with the other entries' diagnostics; the
pass processes all other entries and never raises. -/
theorem discovery_skip_and_continue {M O : Type} (w : DiscoveryWorld M O)
    (pre post : List Entrypoint) (bad : Entrypoint)
    (hbad : descriptorOf w bad = Option.none) :
    (findAdvertisedPlugins w (pre ++ bad :: post)).1 =
      (findAdvertisedPlugins w (pre ++ post)).1 ∧
    (findAdvertisedPlugins w (pre ++ bad :: post)).2 =
      (findAdvertisedPlugins w pre).2 ++ epErrors w bad ++
        (findAdvertisedPlugins w post).2 ∧
    epErrors w bad ≠ [] := by
  refine ⟨?_, ?_, epErrors_ne_nil_of_fail w bad hbad⟩
  · unfold findAdvertisedPlugins
    rw [foldl_discoverStep_eq, foldl_discoverStep_eq]
    have hskip : ∀ q, discoverIns w q bad = q := by
      intro q; unfold discoverIns; rw [hbad]
    simp only [List.foldl_append, List.foldl_cons, hskip]
  · unfold findAdvertisedPlugins
    rw [foldl_discoverStep_eq, foldl_discoverStep_eq, foldl_discoverStep_eq]
    simp [List.append_assoc]

/-- Claim C6 witness: with only the middle entry's module failing to
import, the mapping equals the run without it, and exactly its
diagnostic is interleaved. -/
theorem discovery_skip_and_continue_witness :
    (findAdvertisedPlugins oneBadDW
        ([⟨"Ok1", "m1", []⟩] ++ ⟨"Bad", "badmod", []⟩ :: [⟨"Ok2", "m2", []⟩])).1 =
      (findAdvertisedPlugins oneBadDW ([⟨"Ok1", "m1", []⟩] ++ [⟨"Ok2", "m2", []⟩])).1 ∧
    (findAdvertisedPlugins oneBadDW
        ([⟨"Ok1", "m1", []⟩] ++ ⟨"Bad", "badmod", []⟩ :: [⟨"Ok2", "m2", []⟩])).2 =
      (findAdvertisedPlugins oneBadDW [⟨"Ok1", "m1", []⟩]).2 ++
        epErrors oneBadDW ⟨"Bad", "badmod", []⟩ ++
        (findAdvertisedPlugins oneBadDW [⟨"Ok2", "m2", []⟩]).2 ∧
    epErrors oneBadDW ⟨"Bad", "badmod", []⟩ ≠ [] :=
  discovery_skip_and_continue oneBadDW [⟨"Ok1", "m1", []⟩] [⟨"Ok2", "m2", []⟩]
    ⟨"Bad", "badmod", []⟩ (by decide)

end SPF

namespace SPF

/-- When every entry resolves, the pass invokes the host callback exactly
once per entry, in file order, and returns a result dict. -/
theorem registerPluginsAux_all_ok {M O : Type} (w : RegWorld M O)
    (adv : List (String × PluginDef M O)) (cfg : List (String × Option String))
    (hok : ∀ e ∈ cfg, isOkB (entryStep w adv e) = true) :
    ∀ reg, (registerPluginsAux w adv reg cfg).1 = cfg.filterMap (entryInv w adv) ∧
      ∃ d, (registerPluginsAux w adv reg cfg).2 = .ok d := by
  induction cfg with
  | nil => exact fun reg => ⟨rfl, reg, rfl⟩
  | cons e rest ih =>
      intro reg
      have he := hok e (List.mem_cons_self e rest)
      cases hstep : entryStep w adv e with
      | error msg => rw [hstep] at he; simp [isOkB] at he
      | ok r =>
          obtain ⟨inv, assoc⟩ := r
          have ihr := ih (fun x hx => hok x (List.mem_cons_of_mem _ hx))
            (dictInsert reg assoc.2.plugin_name assoc)
          constructor
          · simp only [registerPluginsAux, hstep, List.filterMap_cons, entryInv,
              exceptOk, Option.map, ihr.1]
          · obtain ⟨d, hd⟩ := ihr.2
            exact ⟨d, by simp only [registerPluginsAux, hstep, hd]⟩

/-- When the entries before a fatally failing entry all resolve, the pass
performs exactly their callback invocations in order, then propagates
the failing entry's error, with no invocation for it or for any later
entry. -/
theorem registerPluginsAux_error {M O : Type} (w : RegWorld M O)
    (adv : List (String × PluginDef M O)) (pre : List (String × Option String))
    (bad : String × Option String) (post : List (String × Option String))
    (hok : ∀ e ∈ pre, isOkB (entryStep w adv e) = true)
    (hbad : isOkB (entryStep w adv bad) = false) :
    ∀ reg, registerPluginsAux w adv reg (pre ++ bad :: post) =
      (pre.filterMap (entryInv w adv), .error (exceptErr (entryStep w adv bad))) := by
  induction pre with
  | nil =>
      intro reg
      cases hstep : entryStep w adv bad with
      | ok r => rw [hstep] at hbad; simp [isOkB] at hbad
      | error msg => simp [registerPluginsAux, hstep, exceptErr]
  | cons e rest ih =>
      intro reg
      have he := hok e (List.mem_cons_self e rest)
      cases hstep : entryStep w adv e with
      | error msg => rw [hstep] at he; simp [isOkB] at he
      | ok r =>
          obtain ⟨inv, assoc⟩ := r
          have ihr := ih (fun x hx => hok x (List.mem_cons_of_mem _ hx))
            (dictInsert reg assoc.2.plugin_name assoc)
          simp only [List.cons_append, registerPluginsAux, hstep, List.append_eq,
            ihr, List.filterMap_cons, entryInv, exceptOk, Option.map]

/-- Each resolving entry contributes exactly one callback invocation. -/
theorem length_filterMap_entryInv {M O : Type} (w : RegWorld M O)
    (adv : List (String × PluginDef M O)) (l : List (String × Option String))
    (hok : ∀ e ∈ l, isOkB (entryStep w adv e) = true) :
    (l.filterMap (entryInv w adv)).length = l.length := by
  induction l with
  | nil => rfl
  | cons e rest ih =>
      have he := hok e (List.mem_cons_self e rest)
      cases hstep : entryStep w adv e with
      | error msg => rw [hstep] at he; simp [isOkB] at he
      | ok r =>
          simp [List.filterMap_cons, entryInv, hstep, exceptOk,
            ih (fun x hx => hok x (List.mem_cons_of_mem _ hx))]

/-- Claim C3: the registration pass processes config entries in file
order, invoking the host callback exactly once per entry in that order;
when entry N fails fatally the callback has been invoked exactly for the
entries before N (those registrations persist — the invocation list is
what the host has observed and is not undone), and the pass aborts with
the error, invoking nothing for entry N or any entry after it. -/
theorem registration_order_no_rollback {M O : Type} (w : RegWorld M O)
    (eps : List Entrypoint) :
    (∀ cfg : List (String × Option String),
       (∀ e ∈ cfg, isOkB (entryStep w (advertisedOf w eps) e) = true) →
       (registerPlugins w eps cfg).1 = cfg.filterMap (entryInv w (advertisedOf w eps)) ∧
       (registerPlugins w eps cfg).1.length = cfg.length) ∧
    (∀ (pre : List (String × Option String)) (bad : String × Option String)
       (post : List (String × Option String)),
       (∀ e ∈ pre, isOkB (entryStep w (advertisedOf w eps) e) = true) →
       isOkB (entryStep w (advertisedOf w eps) bad) = false →
       registerPlugins w eps (pre ++ bad :: post) =
         (pre.filterMap (entryInv w (advertisedOf w eps)),
          .error (exceptErr (entryStep w (advertisedOf w eps) bad))) ∧
       (registerPlugins w eps (pre ++ bad :: post)).1.length = pre.length) := by
  constructor
  · intro cfg hok
    have h := registerPluginsAux_all_ok w (advertisedOf w eps) cfg hok []
    exact ⟨h.1, by rw [registerPlugins, h.1, length_filterMap_entryInv w _ cfg hok]⟩
  · intro pre bad post hok hbad
    have h := registerPluginsAux_error w (advertisedOf w eps) pre bad post hok hbad []
    refine ⟨h, ?_⟩
    rw [registerPlugins, h]
    exact length_filterMap_entryInv w _ pre hok

/-- Claim C3 witness: with entries `ok1; badmod; ok2` and `badmod`
unimportable, exactly one callback invocation (for `ok1`) is observed and
the pass aborts with the `badmod` error. -/
theorem registration_order_no_rollback_witness :
    registerPlugins oneBadRW []
        [("ok1", Option.none), ("badmod", Option.none), ("ok2", Option.none)] =
      ([⟨RegTarget.module "ok1", [], []⟩],
       Except.error ("Do not know how to register plugin: " ++ "badmod")) := by
  have h := (registration_order_no_rollback oneBadRW []).2
    [("ok1", Option.none)] ("badmod", Option.none) [("ok2", Option.none)]
    (by decide) (by decide)
  exact h.1.trans (by decide)

/-- Claim C2: a config entry whose case-folded reference misses the
discovery mapping and whose reference fails to import raises
`RuntimeError("Do not know how to register plugin: <reference>")` and
aborts the pass with no callback invocation for it or any later entry;
when the import succeeds instead, no error is raised for that entry and
the imported module itself is what is passed to the host callback,
together with the entry's parsed arguments. -/
theorem unresolved_plugin_fatal {M O : Type} (w : RegWorld M O)
    (eps : List Entrypoint) (plugin : String) (opts : Option String)
    (rest : List (String × Option String))
    (hmiss : dictGet (advertisedOf w eps) (caseFold plugin) = Option.none) :
    (w.importModule plugin = Option.none →
       registerPlugins w eps ((plugin, opts) :: rest) =
         ([], .error ("Do not know how to register plugin: " ++ plugin))) ∧
    (∀ m, w.importModule plugin = some m →
       ∃ tail res, registerPlugins w eps ((plugin, opts) :: rest) =
         (⟨RegTarget.module m, (parseEntryOptions opts).1,
             (parseEntryOptions opts).2⟩ :: tail, res)) := by
  constructor
  · intro himp
    simp [registerPlugins, registerPluginsAux, entryStep, hmiss,
      tryRegisterOtherPlugin, himp]
  · intro m himp
    simp only [registerPlugins, registerPluginsAux, entryStep, hmiss,
      tryRegisterOtherPlugin, himp]
    exact ⟨_, _, rfl⟩

end SPF

namespace SPF

/-- Claim C2 witness: `"badmod"` misses the (empty) discovery mapping and
fails to import, so the pass raises immediately, naming the reference and
processing nothing — not even the entry after it. -/
theorem unresolved_plugin_fatal_witness :
    registerPlugins oneBadRW [] [("badmod", Option.none), ("ok2", Option.none)] =
      ([], Except.error ("Do not know how to register plugin: " ++ "badmod")) :=
  (unresolved_plugin_fatal oneBadRW [] "badmod" Option.none
      [("ok2", Option.none)] (by decide)).1 (by decide)

/-- Claim C8 (counterexample): a descriptor whose `instance` field is
present but falsy is NOT registered through that instance — the source's
`if inst:` test is truthiness, not presence — the bare module is passed
to the callback instead. -/
theorem instance_presence_counterexample :
    falsyInstPD.inst = some false ∧
    (registerAdvertisedPlugin oneBadRW falsyInstPD [] []).1.target =
      RegTarget.module "modP" ∧
    (registerAdvertisedPlugin oneBadRW falsyInstPD [] []).1.target ≠
      RegTarget.inst false := by
  decide

/-- Claim C8 (amended): on a discovery hit, the object passed to the
host callback is the descriptor's `instance` field whenever that field is
present AND truthy, and otherwise the descriptor's `module` (a
present-but-falsy instance is skipped in favour of the module); the
callback receives the entry's parsed positional and named arguments. -/
theorem instance_preferred_when_truthy {M O : Type} (w : RegWorld M O)
    (pd : PluginDef M O) (args : List Scalar) (kwargs : List (String × Scalar)) :
    (∀ o, pd.inst = some o → w.truthy o = true →
       registerAdvertisedPlugin w pd args kwargs =
         (⟨RegTarget.inst o, args, kwargs⟩,
          w.register_plugin (RegTarget.inst o) args kwargs)) ∧
    ((∀ o, pd.inst = some o → w.truthy o = false) →
       registerAdvertisedPlugin w pd args kwargs =
         (⟨RegTarget.module pd.module, args, kwargs⟩,
          w.register_plugin (RegTarget.module pd.module) args kwargs)) ∧
    (∀ (eps : List Entrypoint) (plugin : String) (opts : Option String),
       dictGet (advertisedOf w eps) (caseFold plugin) = some pd →
       entryStep w (advertisedOf w eps) (plugin, opts) =
         .ok (registerAdvertisedPlugin w pd (parseEntryOptions opts).1
                (parseEntryOptions opts).2)) := by
  refine ⟨?_, ?_, ?_⟩
  · intro o ho ht
    simp [registerAdvertisedPlugin, resolveTarget, ho, ht]
  · intro hfalsy
    cases ho : pd.inst with
    | none => simp [registerAdvertisedPlugin, resolveTarget, ho]
    | some o => simp [registerAdvertisedPlugin, resolveTarget, ho, hfalsy o ho]
  · intro eps plugin opts hhit
    simp [entryStep, hhit]

/-- Claim C8 witness: a present-and-truthy instance is the object passed
to the callback. -/
theorem instance_preferred_when_truthy_witness :
    registerAdvertisedPlugin oneBadRW ⟨"P", "modP", some true⟩ [] [] =
      (⟨RegTarget.inst true, [], []⟩,
       oneBadRW.register_plugin (RegTarget.inst true) [] []) :=
  (instance_preferred_when_truthy oneBadRW ⟨"P", "modP", some true⟩ [] []).1
    true rfl rfl

/-- When every entry resolves, the pass returns a dict whose properties
relative to the starting dict are: keys are the records' canonical
names, keys stay unique, and a key is present iff it was present before
or some entry's record reported it. -/
theorem registerPluginsAux_ok_dict {M O : Type} (w : RegWorld M O)
    (adv : List (String × PluginDef M O)) (cfg : List (String × Option String))
    (hok : ∀ e ∈ cfg, isOkB (entryStep w adv e) = true) :
    ∀ reg, ∃ d, (registerPluginsAux w adv reg cfg).2 = .ok d ∧
      ((∀ p ∈ reg, p.1 = p.2.2.plugin_name) → ∀ p ∈ d, p.1 = p.2.2.plugin_name) ∧
      ((reg.map Prod.fst).Nodup → (d.map Prod.fst).Nodup) ∧
      (∀ k, (dictGet d k).isSome = true ↔
        ((dictGet reg k).isSome = true ∨ k ∈ registeredNames w adv cfg)) := by
  induction cfg with
  | nil =>
      intro reg
      refine ⟨reg, rfl, fun h => h, fun h => h, fun k => ?_⟩
      simp [registeredNames]
  | cons e rest ih =>
      intro reg
      have he := hok e (List.mem_cons_self e rest)
      cases hstep : entryStep w adv e with
      | error msg => rw [hstep] at he; simp [isOkB] at he
      | ok r =>
          obtain ⟨inv, assoc⟩ := r
          obtain ⟨d, hd, hkeys, hnodup, hmem⟩ :=
            ih (fun x hx => hok x (List.mem_cons_of_mem _ hx))
              (dictInsert reg assoc.2.plugin_name assoc)
          refine ⟨d, ?_, ?_, ?_, ?_⟩
          · simp only [registerPluginsAux, hstep, hd]
          · intro hreg
            refine hkeys ?_
            intro p hp
            rcases mem_dictInsert reg assoc.2.plugin_name assoc p hp with h1 | h1
            · rw [h1]
            · exact hreg p h1
          · intro hreg
            exact hnodup (nodup_keys_dictInsert reg assoc.2.plugin_name assoc hreg)
          · intro k
            rw [hmem k, dictGet_dictInsert]
            have hnames : registeredNames w adv (e :: rest) =
                assoc.2.plugin_name :: registeredNames w adv rest := by
              simp [registeredNames, List.filterMap_cons, hstep, exceptOk]
            rw [hnames]
            by_cases hk : assoc.2.plugin_name = k
            · simp [hk]
            · have hk' : ¬ (k = assoc.2.plugin_name) := fun h => hk h.symm
              simp [hk, hk']

/-- Claim C9: when the registration pass completes without fatal
failure, its result mapping is keyed exactly by the canonical
`plugin_name` each registration record self-reported — every stored pair
is keyed by its own record's name, the keys are pairwise distinct, and a
key occurs iff some successfully registered entry's record reported it —
independent of the reference strings used in the configuration. -/
theorem register_result_canonical_keys {M O : Type} (w : RegWorld M O)
    (eps : List Entrypoint) (cfg : List (String × Option String))
    (hok : ∀ e ∈ cfg, isOkB (entryStep w (advertisedOf w eps) e) = true) :
    ∃ d, (registerPlugins w eps cfg).2 = .ok d ∧
      (∀ p ∈ d, p.1 = p.2.2.plugin_name) ∧
      (d.map Prod.fst).Nodup ∧
      (∀ k, (dictGet d k).isSome = true ↔
        k ∈ registeredNames w (advertisedOf w eps) cfg) := by
  obtain ⟨d, hd, hkeys, hnodup, hmem⟩ :=
    registerPluginsAux_ok_dict w (advertisedOf w eps) cfg hok []
  refine ⟨d, hd, hkeys (by simp), hnodup (by simp), fun k => ?_⟩
  rw [hmem k]
  simp [dictGet]

/-- Claim C9 witness: two ad hoc entries referenced as `alpha` and
`Beta` end up keyed by their records' canonical names. -/
theorem register_result_canonical_keys_witness :
    ∃ d, (registerPlugins oneBadRW []
        [("alpha", some "x=1"), ("Beta", Option.none)]).2 = .ok d ∧
      (∀ p ∈ d, p.1 = p.2.2.plugin_name) ∧
      (d.map Prod.fst).Nodup ∧
      (∀ k, (dictGet d k).isSome = true ↔
        k ∈ registeredNames oneBadRW (advertisedOf oneBadRW [])
              [("alpha", some "x=1"), ("Beta", Option.none)]) :=
  register_result_canonical_keys oneBadRW []
    [("alpha", some "x=1"), ("Beta", Option.none)] (by decide)

end SPF
